import Mathlib

/-!
Shallow embedding of the MeteoSwiss synchronization scripts
(`fetch_historical_data.py`, `fetch_now_data.py`, `fetch_recent_data.py`,
`upload_to_snowflake.py`).

Stations, assets and catalog pages are explicit values; the network is an
oracle `Net : String → Option String` (a `none` result stands for any
network error, timeout or non-success HTTP status of a GET); the local
file system is a map from destination paths to file contents; the list of
URLs requested so far is threaded through a `World` so that statements
about "number of network calls" are expressible.
-/

namespace Meteoswiss

/-- Substring containment on strings: models the Python `sub in s` operator. -/
def strContains (s sub : String) : Bool := decide (sub.toList <:+: s.toList)

/-- Suffix test on strings: models the Python `s.endswith(suffix)` method. -/
def strEndsWith (s suffix : String) : Bool := suffix.toList.isSuffixOf s.toList

/-- Python truthiness filter on an optional string: `None` and `""` are falsy.
Models idioms such as `if cursor:` and `if not url:` in the scripts. -/
def truthyStr : Option String → Option String
  | some s => if s = "" then none else some s
  | none => none

/-- One downloadable asset record: `assets[name] = {href: ...}`.
The `href` key may be absent (`asset_info.get('href')` returns `None`). -/
structure Asset where
  href : Option String
  deriving DecidableEq, Repr

/-- One station feature of the catalog: `{id, assets}` (the `title` is
print-only and not modelled). The asset mapping is an insertion-ordered
association list, as a Python dict is. -/
structure Station where
  id : String
  assets : List (String × Asset)
  deriving DecidableEq, Repr

/-- One entry of a page's `links` array: a relation and the optional
`body.cursor` it carries. -/
structure Link where
  rel : String
  cursor : Option String
  deriving DecidableEq, Repr

/-- One page of the paginated `/search` response: `{features, links}`. -/
structure Page where
  features : List Station
  links : List Link
  deriving DecidableEq, Repr

/-- `next((link for link in links if link.get('rel') == 'next'), None)`. -/
def nextLink (links : List Link) : Option Link :=
  links.find? (fun l => l.rel == "next")

/-- The cursor with which pagination continues after page `p`, or `none`
when the loop breaks: no `next` link, or its body carries no (truthy)
cursor. -/
def pageNext (p : Page) : Option String :=
  match nextLink p.links with
  | none => none
  | some l => truthyStr l.cursor

/-- `fetch_all_stations` run against a finite mock server that serves the
given pages in order: accumulate each page's `features`, stop when the
page yields no continuation cursor (or the server has no further page). -/
def fetch_all_stations : List Page → List Station
  | [] => []
  | p :: rest =>
    p.features ++ (match pageNext p with
      | none => []
      | some _ => fetch_all_stations rest)

/-- The failure modes of one catalog request: `raise_for_status` on a
non-success HTTP status, `response.json()` on a malformed body, or the
request call itself on a connection error. All raise and propagate. -/
inductive CatalogError where
  | httpStatus
  | malformedJson
  | connectionFailed
  deriving DecidableEq, Repr

/-- `fetch_all_stations` against a mock server whose responses may fail:
a raised exception propagates out of the loop, discarding everything
accumulated so far. -/
def fetch_all_stationsE : List (Except CatalogError Page) → Except CatalogError (List Station)
  | [] => Except.ok []
  | Except.error e :: _ => Except.error e
  | Except.ok p :: rest =>
    match pageNext p with
    | none => Except.ok p.features
    | some _ =>
      match fetch_all_stationsE rest with
      | Except.error e => Except.error e
      | Except.ok tail => Except.ok (p.features ++ tail)

/-- A destination path `station_dir / asset_name`, keyed by station id and
asset name under the tier's output root. -/
abbrev DestPath := String × String

/-- The local file system under the output root: path to file content. -/
abbrev FileSystem := DestPath → Option String

/-- The network oracle for asset GETs: `some body` is a success whose
response content is `body`; `none` is any network error, timeout or
non-success status (all caught by the same `except` clause). -/
abbrev Net := String → Option String

/-- Mutable run state threaded through the download loops: the file
system plus the log of asset URLs requested so far. -/
structure World where
  fs : FileSystem
  calls : List String

/-- Write `body` to `path`, replacing any existing file. -/
def writeFS (fs : FileSystem) (path : DestPath) (body : String) : FileSystem :=
  fun q => if q = path then some body else fs q

/-- `download_csv(url, output_path)`: one bounded-timeout GET; on success
write the body verbatim and return `True`, on any exception return
`False`. The URL is logged as a network call either way. -/
def download_csv (net : Net) (url : String) (path : DestPath) (w : World) : Bool × World :=
  match net url with
  | some body => (true, ⟨writeFS w.fs path body, w.calls ++ [url]⟩)
  | none => (false, ⟨w.fs, w.calls ++ [url]⟩)

/-- The historical tier's name predicate:
`'_t_historical_' in name and name.endswith('.csv')`. -/
def isHistoricalName (n : String) : Bool :=
  strContains n "_t_historical_" && strEndsWith n ".csv"

/-- The historical classifier: the dict comprehension keeping every asset
whose name matches `isHistoricalName`, in insertion order. -/
def historicalAssets (assets : List (String × Asset)) : List (String × Asset) :=
  assets.filter (fun p => isHistoricalName p.1)

/-- The now classifier: the first asset whose name ends with
`_t_now.csv` (the loop breaks at the first match). -/
def nowAsset (assets : List (String × Asset)) : Option (String × Asset) :=
  assets.find? (fun p => strEndsWith p.1 "_t_now.csv")

/-- The recent classifier: the first asset whose name ends with
`_t_recent.csv` (the loop breaks at the first match). -/
def recentAsset (assets : List (String × Asset)) : Option (String × Asset) :=
  assets.find? (fun p => strEndsWith p.1 "_t_recent.csv")

/-- One iteration of the historical download loop over a selected asset:
skip silently when the href is missing or empty; count the file and make
no network call when the destination already exists; otherwise transfer it
and count it only on success. -/
def downloadStep (net : Net) (sid : String) (acc : Nat × World) (p : String × Asset) :
    Nat × World :=
  match truthyStr p.2.href with
  | none => acc
  | some url =>
    if (acc.2.fs (sid, p.1)).isSome then (acc.1 + 1, acc.2)
    else
      let r := download_csv net url (sid, p.1) acc.2
      (if r.1 then acc.1 + 1 else acc.1, r.2)

/-- `download_station_data` of the historical script: select the
`_t_historical_*.csv` assets, return 0 when none, else run the download
loop and return the per-station count. -/
def download_station_data (net : Net) (sid : String) (assets : List (String × Asset))
    (w : World) : Nat × World :=
  let hist := historicalAssets assets
  if hist.isEmpty then (0, w)
  else hist.foldl (downloadStep net sid) (0, w)

/-- `download_station_data` of the now script: pick the first
`_t_now.csv` asset; return 0 when there is none or its href is missing;
otherwise always download (overwrite) and return 1 on success, 0 on
failure. -/
def download_station_data_now (net : Net) (sid : String) (assets : List (String × Asset))
    (w : World) : Nat × World :=
  match nowAsset assets with
  | none => (0, w)
  | some (n, a) =>
    match truthyStr a.href with
    | none => (0, w)
    | some url =>
      let r := download_csv net url (sid, n) w
      (if r.1 then 1 else 0, r.2)

/-- `download_station_data` of the recent script: identical to the now
script with the `_t_recent.csv` selector. -/
def download_station_data_recent (net : Net) (sid : String) (assets : List (String × Asset))
    (w : World) : Nat × World :=
  match recentAsset assets with
  | none => (0, w)
  | some (n, a) =>
    match truthyStr a.href with
    | none => (0, w)
    | some url =>
      let r := download_csv net url (sid, n) w
      (if r.1 then 1 else 0, r.2)

/-- The run summary printed by `main`. -/
structure RunSummary where
  stations_processed : Nat
  stations_with_data : Nat
  total_files : Nat
  deriving DecidableEq, Repr

/-- A per-station download routine, abstracted over so that the three
`main` loops share one runner shape. -/
abbrev Downloader := Net → String → List (String × Asset) → World → Nat × World

/-- One iteration of the station loop in `main`: download the station's
files and fold the count into the summary (`stations_with_data` and
`total_files` are touched only when the count is positive). -/
def runStep (dl : Downloader) (net : Net) (acc : RunSummary × World) (st : Station) :
    RunSummary × World :=
  let r := dl net st.id st.assets acc.2
  (⟨acc.1.stations_processed + 1,
    acc.1.stations_with_data + (if 0 < r.1 then 1 else 0),
    acc.1.total_files + (if 0 < r.1 then r.1 else 0)⟩, r.2)

/-- The station loop of `main`, starting from zeroed counters. -/
def runSync (dl : Downloader) (net : Net) (stations : List Station) (w : World) :
    RunSummary × World :=
  stations.foldl (runStep dl net) (⟨0, 0, 0⟩, w)

/-- `main` of the historical script, given the already-fetched stations. -/
def runHistorical : Net → List Station → World → RunSummary × World :=
  runSync download_station_data

/-- `main` of the now script, given the already-fetched stations. -/
def runNow : Net → List Station → World → RunSummary × World :=
  runSync download_station_data_now

/-- `main` of the recent script, given the already-fetched stations. -/
def runRecent : Net → List Station → World → RunSummary × World :=
  runSync download_station_data_recent

/-- Whether processing a selected asset bumps the station's counter:
its href is usable and either the destination already exists in `fs`
(skip counts as done) or the GET succeeds. -/
def assetDone (net : Net) (fs : FileSystem) (sid : String) (p : String × Asset) : Bool :=
  match truthyStr p.2.href with
  | none => false
  | some url => (fs (sid, p.1)).isSome || (net url).isSome

/-- The process environment for the upload script: variable name to
optional value. -/
abbrev Env := String → Option String

/-- Python truthiness of an `os.getenv` result. -/
def optTruthy : Option String → Bool
  | some s => !(s == "")
  | none => false

/-- The connection parameters handed to `snowflake.connector.connect`. -/
structure SnowCfg where
  account : String
  user : String
  password : String
  role : String
  warehouse : String
  database : String
  schema : String
  deriving DecidableEq, Repr

/-- Outcome of `upload_files_to_stage` up to the connection attempt:
either one of the `sys.exit(1)` aborts, or a connection is attempted with
the resolved configuration. -/
inductive UploadOutcome where
  | missingCreds
  | missingGridFile
  | missingForecastFile
  | connected (cfg : SnowCfg)
  deriving DecidableEq, Repr

/-- `upload_files_to_stage` of `upload_to_snowflake.py`, up to the point
where a warehouse connection is first attempted: resolve the seven
environment variables (four with defaults), abort when
`not all([account, user, password])`, then abort when either input file is
missing, else connect. -/
def upload_files_to_stage (env : Env) (gridExists forecastExists : Bool) : UploadOutcome :=
  let account := env "SNOWFLAKE_ACCOUNT"
  let user := env "SNOWFLAKE_USER"
  let password := env "SNOWFLAKE_PASSWORD"
  let role := (env "SNOWFLAKE_ROLE").getD "SYSADMIN"
  let warehouse := (env "SNOWFLAKE_WAREHOUSE").getD "METEOSWISS_WH"
  let database := (env "SNOWFLAKE_DATABASE").getD "METEOSWISS"
  let schema := (env "SNOWFLAKE_SCHEMA").getD "BRONZE"
  if !(optTruthy account && optTruthy user && optTruthy password) then
    UploadOutcome.missingCreds
  else if !gridExists then
    UploadOutcome.missingGridFile
  else if !forecastExists then
    UploadOutcome.missingForecastFile
  else
    UploadOutcome.connected
      ⟨account.getD "", user.getD "", password.getD "", role, warehouse, database, schema⟩

/-- The validation the code actually performs:
`not all([account, user, password])` over the raw environment values. -/
def credsMissing (env : Env) : Bool :=
  !(optTruthy (env "SNOWFLAKE_ACCOUNT") && optTruthy (env "SNOWFLAKE_USER") &&
    optTruthy (env "SNOWFLAKE_PASSWORD"))

/-- The validation the spec describes (for comparison with `credsMissing`):
all seven resolved credentials are present and non-empty. -/
def allSevenPresent (env : Env) : Bool :=
  optTruthy (env "SNOWFLAKE_ACCOUNT") && optTruthy (env "SNOWFLAKE_USER") &&
  optTruthy (env "SNOWFLAKE_PASSWORD") &&
  !((env "SNOWFLAKE_ROLE").getD "SYSADMIN" == "") &&
  !((env "SNOWFLAKE_WAREHOUSE").getD "METEOSWISS_WH" == "") &&
  !((env "SNOWFLAKE_DATABASE").getD "METEOSWISS" == "") &&
  !((env "SNOWFLAKE_SCHEMA").getD "BRONZE" == "")

/-! ### Helper lemmas about the catalog walker -/

/-- When a page yields no continuation, the walk over it returns just its
features, ignoring any further mock pages. -/
theorem fetch_all_stations_stop (q : Page) (rest : List Page) (h : pageNext q = none) :
    fetch_all_stations (q :: rest) = q.features := by
  simp [fetch_all_stations, h]

/-- When a page yields a continuation cursor, the walk accumulates its
features and continues with the remaining pages. -/
theorem fetch_all_stations_go (q : Page) (rest : List Page) (c : String)
    (h : pageNext q = some c) :
    fetch_all_stations (q :: rest) = q.features ++ fetch_all_stations rest := by
  simp [fetch_all_stations, h]

/-! ### Fixtures for concrete evaluations -/

def stA : Station := ⟨"abc", [("abc_t_historical_1990-1999.csv", ⟨some "https://x/abc-hist"⟩)]⟩

def stB : Station := ⟨"ber", [("ber_t_historical_2000-2009.csv", ⟨some "https://x/ber-hist"⟩)]⟩

def pgGo : Page := ⟨[stA], [⟨"self", none⟩, ⟨"next", some "cursor-2"⟩]⟩

def pgStop : Page := ⟨[stB], [⟨"self", none⟩]⟩

/-- Claim C1: for every finite sequence of catalog pages,
`fetch_all_stations` returns exactly the concatenation of each page's
`features` lists in page order, and the pagination loop terminates as soon
as a page's links contain no `next` link or the `next` link's body carries
no cursor. -/
theorem fetch_all_stations_pagination (mid : List Page) (last : Page)
    (hmid : ∀ p ∈ mid, (pageNext p).isSome = true)
    (hlast : pageNext last = none) :
    fetch_all_stations (mid ++ [last]) = ((mid ++ [last]).map Page.features).flatten ∧
    (∀ (q : Page) (rest : List Page), pageNext q = none →
      fetch_all_stations (q :: rest) = q.features) := by
  refine ⟨?_, fun q rest h => fetch_all_stations_stop q rest h⟩
  induction mid with
  | nil => simp [fetch_all_stations_stop last [] hlast]
  | cons p ps ih =>
    have hp : (pageNext p).isSome = true := hmid p (by simp)
    obtain ⟨c, hc⟩ := Option.isSome_iff_exists.mp hp
    have := ih (fun q hq => hmid q (by simp [hq]))
    simp only [List.cons_append, fetch_all_stations_go p (ps ++ [last]) c hc, this,
      List.map_cons, List.flatten_cons]

theorem fetch_all_stations_pagination_witness :
    (∀ p ∈ [pgGo], (pageNext p).isSome = true) ∧ pageNext pgStop = none ∧
    fetch_all_stations ([pgGo] ++ [pgStop]) = (([pgGo] ++ [pgStop]).map Page.features).flatten :=
  ⟨by decide, by decide,
    (fetch_all_stations_pagination [pgGo] pgStop (by decide) (by decide)).1⟩

/-- Claim C6: during catalog pagination, any failing response (non-success
HTTP status, malformed JSON, or connection error) aborts the whole catalog
fetch: the exception propagates and no partial station list is returned,
however many pages were already accumulated. -/
theorem catalog_fetch_aborts_on_error (good : List Page) (e : CatalogError)
    (rest : List (Except CatalogError Page))
    (hgood : ∀ p ∈ good, (pageNext p).isSome = true) :
    fetch_all_stationsE (good.map Except.ok ++ Except.error e :: rest) = Except.error e := by
  induction good with
  | nil => simp [fetch_all_stationsE]
  | cons p ps ih =>
    have hp : (pageNext p).isSome = true := hgood p (by simp)
    obtain ⟨c, hc⟩ := Option.isSome_iff_exists.mp hp
    have htail := ih (fun q hq => hgood q (by simp [hq]))
    simp only [List.map_cons, List.cons_append, fetch_all_stationsE, hc, List.append_eq, htail]

theorem catalog_fetch_aborts_on_error_witness :
    (∀ p ∈ [pgGo], (pageNext p).isSome = true) ∧
    fetch_all_stationsE ([pgGo].map Except.ok ++
      Except.error CatalogError.httpStatus :: []) = Except.error CatalogError.httpStatus :=
  ⟨by decide,
    catalog_fetch_aborts_on_error [pgGo] CatalogError.httpStatus [] (by decide)⟩

/-! ### Classifier fixtures -/

def aH : Asset := ⟨some "https://x/h"⟩

def aN : Asset := ⟨some "https://x/n"⟩

def aR : Asset := ⟨some "https://x/r"⟩

def demoAssets : List (String × Asset) :=
  [("ABC_t_historical_1990-1999.csv", aH), ("ABC_t_now.csv", aN), ("ABC_t_recent.csv", aR)]

/-- Claim C2: the historical classifier keeps exactly the assets whose
name contains `_t_historical_` and ends with `.csv` (all matches); the now
and recent classifiers return the first asset whose name ends with
`_t_now.csv` resp. `_t_recent.csv`; and on the three-asset demo set each
tier selects only its own file. -/
theorem classifier_selects :
    (∀ (assets : List (String × Asset)) (n : String) (a : Asset),
      (n, a) ∈ historicalAssets assets ↔ ((n, a) ∈ assets ∧ isHistoricalName n = true)) ∧
    (∀ (l1 l2 : List (String × Asset)) (n : String) (a : Asset),
      (∀ q ∈ l1, strEndsWith q.1 "_t_now.csv" = false) → strEndsWith n "_t_now.csv" = true →
      nowAsset (l1 ++ (n, a) :: l2) = some (n, a)) ∧
    (∀ (l1 l2 : List (String × Asset)) (n : String) (a : Asset),
      (∀ q ∈ l1, strEndsWith q.1 "_t_recent.csv" = false) →
      strEndsWith n "_t_recent.csv" = true →
      recentAsset (l1 ++ (n, a) :: l2) = some (n, a)) ∧
    (historicalAssets demoAssets = [("ABC_t_historical_1990-1999.csv", aH)] ∧
      nowAsset demoAssets = some ("ABC_t_now.csv", aN) ∧
      recentAsset demoAssets = some ("ABC_t_recent.csv", aR)) := by
  refine ⟨?_, ?_, ?_, by decide, by decide, by decide⟩
  · intro assets n a
    simp [historicalAssets, List.mem_filter]
  · intro l1 l2 n a hl1 hn
    induction l1 with
    | nil => simp [nowAsset, List.find?_cons, hn]
    | cons q qs ih =>
      have hq : strEndsWith q.1 "_t_now.csv" = false := hl1 q (by simp)
      have := ih (fun r hr => hl1 r (by simp [hr]))
      simpa [nowAsset, List.find?_cons, hq] using this
  · intro l1 l2 n a hl1 hn
    induction l1 with
    | nil => simp [recentAsset, List.find?_cons, hn]
    | cons q qs ih =>
      have hq : strEndsWith q.1 "_t_recent.csv" = false := hl1 q (by simp)
      have := ih (fun r hr => hl1 r (by simp [hr]))
      simpa [recentAsset, List.find?_cons, hq] using this

theorem classifier_selects_witness :
    (∀ q ∈ ([] : List (String × Asset)), strEndsWith q.1 "_t_now.csv" = false) ∧
    strEndsWith "ABC_t_now.csv" "_t_now.csv" = true ∧
    nowAsset ([] ++ ("ABC_t_now.csv", aN) :: [("ABC_t_recent.csv", aR)]) =
      some ("ABC_t_now.csv", aN) :=
  ⟨by decide, by decide,
    classifier_selects.2.1 [] [("ABC_t_recent.csv", aR)] "ABC_t_now.csv" aN
      (by decide) (by decide)⟩

/-! ### Helper lemmas about the historical download loop -/

/-- Agreement of two file systems on every path of one station. -/
def agreeOn (sid : String) (f g : FileSystem) : Prop :=
  ∀ x, f (sid, x) = g (sid, x)

theorem download_station_data_eq_foldl (net : Net) (sid : String)
    (assets : List (String × Asset)) (w : World) :
    download_station_data net sid assets w =
      (historicalAssets assets).foldl (downloadStep net sid) (0, w) := by
  unfold download_station_data
  cases h : (historicalAssets assets).isEmpty
  · simp [h]
  · have hnil : historicalAssets assets = [] := List.isEmpty_iff.mp h
    simp [h, hnil]

theorem writeFS_of_ne (fs : FileSystem) (path : DestPath) (body : String) (q : DestPath)
    (h : q ≠ path) : writeFS fs path body q = fs q := by
  simp [writeFS, h]

theorem download_csv_fs_of_ne (net : Net) (url : String) (path : DestPath) (w : World)
    (q : DestPath) (h : q ≠ path) : ((download_csv net url path w).2).fs q = w.fs q := by
  unfold download_csv
  cases net url <;> simp [writeFS, h]

theorem downloadStep_fs_of_ne (net : Net) (sid : String) (acc : Nat × World)
    (p : String × Asset) (q : DestPath) (hq : q ≠ (sid, p.1)) :
    ((downloadStep net sid acc p).2).fs q = acc.2.fs q := by
  unfold downloadStep
  cases htr : truthyStr p.2.href with
  | none => rfl
  | some url =>
    cases hex : (acc.2.fs (sid, p.1)).isSome with
    | true => simp [hex]
    | false => simp [hex, download_csv_fs_of_ne net url (sid, p.1) acc.2 q hq]

theorem foldl_downloadStep_fs_of_ne (net : Net) (sid : String) (l : List (String × Asset))
    (acc : Nat × World) (q : DestPath) (hq : q.1 ≠ sid) :
    ((l.foldl (downloadStep net sid) acc).2).fs q = acc.2.fs q := by
  induction l generalizing acc with
  | nil => rfl
  | cons p ps ih =>
    rw [List.foldl_cons, ih]
    exact downloadStep_fs_of_ne net sid acc p q
      (fun hcontr => hq (by rw [hcontr]))

theorem download_station_data_fs_of_ne (net : Net) (sid : String)
    (assets : List (String × Asset)) (w : World) (q : DestPath) (hq : q.1 ≠ sid) :
    ((download_station_data net sid assets w).2).fs q = w.fs q := by
  rw [download_station_data_eq_foldl]
  exact foldl_downloadStep_fs_of_ne net sid (historicalAssets assets) (0, w) q hq

theorem foldl_downloadStep_congr (net : Net) (sid : String) (l : List (String × Asset))
    (c : Nat) (w1 w2 : World) (h : agreeOn sid w1.fs w2.fs) :
    (l.foldl (downloadStep net sid) (c, w1)).1 = (l.foldl (downloadStep net sid) (c, w2)).1 ∧
    agreeOn sid ((l.foldl (downloadStep net sid) (c, w1)).2).fs
      ((l.foldl (downloadStep net sid) (c, w2)).2).fs := by
  induction l generalizing c w1 w2 with
  | nil => exact ⟨rfl, h⟩
  | cons p ps ih =>
    rw [List.foldl_cons, List.foldl_cons]
    cases htr : truthyStr p.2.href with
    | none =>
      simp only [downloadStep, htr]
      exact ih c w1 w2 h
    | some url =>
      have hpt : w1.fs (sid, p.1) = w2.fs (sid, p.1) := h p.1
      cases hex : (w1.fs (sid, p.1)).isSome with
      | true =>
        have hex2 : (w2.fs (sid, p.1)).isSome = true := by rw [← hpt]; exact hex
        simp only [downloadStep, htr, hex, hex2, if_true]
        exact ih (c + 1) w1 w2 h
      | false =>
        have hex2 : (w2.fs (sid, p.1)).isSome = false := by rw [← hpt]; exact hex
        cases hnet : net url with
        | some body =>
          simp only [downloadStep, htr, hex, hex2, Bool.false_eq_true, if_false,
            download_csv, hnet]
          refine ih (c + 1) ⟨writeFS w1.fs (sid, p.1) body, w1.calls ++ [url]⟩
            ⟨writeFS w2.fs (sid, p.1) body, w2.calls ++ [url]⟩ ?_
          intro x
          by_cases hx : ((sid, x) : DestPath) = (sid, p.1)
          · simp [writeFS, hx]
          · simp [writeFS, hx, h x]
        | none =>
          simp only [downloadStep, htr, hex, hex2, Bool.false_eq_true, if_false,
            download_csv, hnet]
          exact ih c ⟨w1.fs, w1.calls ++ [url]⟩ ⟨w2.fs, w2.calls ++ [url]⟩ h

theorem download_station_data_congr (net : Net) (sid : String)
    (assets : List (String × Asset)) (w1 w2 : World) (h : agreeOn sid w1.fs w2.fs) :
    (download_station_data net sid assets w1).1 = (download_station_data net sid assets w2).1 := by
  rw [download_station_data_eq_foldl, download_station_data_eq_foldl]
  exact (foldl_downloadStep_congr net sid (historicalAssets assets) 0 w1 w2 h).1

theorem foldl_downloadStep_count (net : Net) (sid : String) (l : List (String × Asset))
    (c : Nat) (w wRef : World)
    (hnodup : (l.map Prod.fst).Nodup)
    (hagree : ∀ p ∈ l, w.fs (sid, p.1) = wRef.fs (sid, p.1)) :
    (l.foldl (downloadStep net sid) (c, w)).1 =
      c + (l.filter (assetDone net wRef.fs sid)).length := by
  induction l generalizing c w with
  | nil => simp
  | cons p ps ih =>
    rw [List.map_cons, List.nodup_cons] at hnodup
    obtain ⟨hpnotin, hnodup2⟩ := hnodup
    cases htr : truthyStr p.2.href with
    | none =>
      have hdone : assetDone net wRef.fs sid p = false := by simp [assetDone, htr]
      have hstep : downloadStep net sid (c, w) p = (c, w) := by
        simp [downloadStep, htr]
      rw [List.foldl_cons, hstep,
        ih c w hnodup2 (fun q hq => hagree q (by simp [hq]))]
      simp [List.filter_cons, hdone]
    | some url =>
      cases hex : (w.fs (sid, p.1)).isSome with
      | true =>
        have hdone : assetDone net wRef.fs sid p = true := by
          have hw := hagree p (by simp)
          simp [assetDone, htr, ← hw, hex]
        have hstep : downloadStep net sid (c, w) p = (c + 1, w) := by
          simp [downloadStep, htr, hex]
        rw [List.foldl_cons, hstep,
          ih (c + 1) w hnodup2 (fun q hq => hagree q (by simp [hq]))]
        simp [List.filter_cons, hdone]
        omega
      | false =>
        cases hnet : net url with
        | some body =>
          have hdone : assetDone net wRef.fs sid p = true := by
            simp [assetDone, htr, hnet]
          have hstep : downloadStep net sid (c, w) p =
              (c + 1, ⟨writeFS w.fs (sid, p.1) body, w.calls ++ [url]⟩) := by
            simp [downloadStep, htr, hex, download_csv, hnet]
          have hagree2 : ∀ q ∈ ps,
              (⟨writeFS w.fs (sid, p.1) body, w.calls ++ [url]⟩ : World).fs (sid, q.1) =
                wRef.fs (sid, q.1) := by
            intro q hq
            have hne : q.1 ≠ p.1 := by
              intro hcontr
              exact hpnotin (hcontr ▸ List.mem_map_of_mem Prod.fst hq)
            have hne2 : ((sid, q.1) : DestPath) ≠ (sid, p.1) := by
              intro hcontr
              exact hne (congrArg Prod.snd hcontr)
            show writeFS w.fs (sid, p.1) body (sid, q.1) = wRef.fs (sid, q.1)
            rw [writeFS_of_ne w.fs (sid, p.1) body (sid, q.1) hne2]
            exact hagree q (by simp [hq])
          rw [List.foldl_cons, hstep, ih (c + 1) _ hnodup2 hagree2]
          simp [List.filter_cons, hdone]
          omega
        | none =>
          have hdone : assetDone net wRef.fs sid p = false := by
            have hw := hagree p (by simp)
            simp [assetDone, htr, ← hw, hex, hnet]
          have hstep : downloadStep net sid (c, w) p = (c, ⟨w.fs, w.calls ++ [url]⟩) := by
            simp [downloadStep, htr, hex, download_csv, hnet]
          rw [List.foldl_cons, hstep,
            ih c ⟨w.fs, w.calls ++ [url]⟩ hnodup2 (fun q hq => hagree q (by simp [hq]))]
          simp [List.filter_cons, hdone]

theorem download_station_data_count (net : Net) (sid : String)
    (assets : List (String × Asset)) (w : World)
    (hnodup : ((historicalAssets assets).map Prod.fst).Nodup) :
    (download_station_data net sid assets w).1 =
      ((historicalAssets assets).filter (assetDone net w.fs sid)).length := by
  rw [download_station_data_eq_foldl]
  simpa using foldl_downloadStep_count net sid (historicalAssets assets) 0 w w hnodup
    (fun _ _ => rfl)

/-! ### Decomposition of the historical station loop -/

theorem runStep_eq (dl : Downloader) (net : Net) (s : RunSummary) (w : World) (st : Station) :
    runStep dl net (s, w) st =
      (⟨s.stations_processed + 1,
        s.stations_with_data + (if 0 < (dl net st.id st.assets w).1 then 1 else 0),
        s.total_files +
          (if 0 < (dl net st.id st.assets w).1 then (dl net st.id st.assets w).1 else 0)⟩,
       (dl net st.id st.assets w).2) := rfl

theorem runSync_hist_aux (net : Net) (stations : List Station) (w : World)
    (s : RunSummary) (w2 : World)
    (hagree : ∀ st ∈ stations, agreeOn st.id w2.fs w.fs)
    (hids : (stations.map Station.id).Nodup) :
    (stations.foldl (runStep download_station_data net) (s, w2)).1 =
      ⟨s.stations_processed + stations.length,
       s.stations_with_data + (stations.filter
         (fun st => decide (0 < (download_station_data net st.id st.assets w).1))).length,
       s.total_files + (stations.map
         (fun st => (download_station_data net st.id st.assets w).1)).sum⟩ := by
  induction stations generalizing s w2 with
  | nil => simp
  | cons st sts ih =>
    rw [List.map_cons, List.nodup_cons] at hids
    obtain ⟨hstni, hids2⟩ := hids
    have hcount : (download_station_data net st.id st.assets w2).1 =
        (download_station_data net st.id st.assets w).1 :=
      download_station_data_congr net st.id st.assets w2 w (hagree st (by simp))
    have hagree2 : ∀ st2 ∈ sts, agreeOn st2.id
        ((download_station_data net st.id st.assets w2).2).fs w.fs := by
      intro st2 hst2 x
      have hne : st2.id ≠ st.id := by
        intro hcontr
        exact hstni (hcontr ▸ List.mem_map_of_mem Station.id hst2)
      rw [download_station_data_fs_of_ne net st.id st.assets w2 (st2.id, x) hne]
      exact hagree st2 (by simp [hst2]) x
    rw [List.foldl_cons, runStep_eq, hcount, ih _ _ hagree2 hids2]
    by_cases hpos : 0 < (download_station_data net st.id st.assets w).1
    · simp only [List.filter_cons, List.map_cons, List.sum_cons, List.length_cons,
        RunSummary.mk.injEq]
      rw [if_pos hpos, if_pos hpos, if_pos (by simpa using hpos), List.length_cons]
      refine ⟨by omega, by omega, by omega⟩
    · simp only [List.filter_cons, List.map_cons, List.sum_cons, List.length_cons,
        RunSummary.mk.injEq]
      rw [if_neg hpos, if_neg hpos, if_neg (by simpa using hpos)]
      refine ⟨by omega, by omega, by omega⟩

theorem runHistorical_decomp (net : Net) (stations : List Station) (w : World)
    (hids : (stations.map Station.id).Nodup) :
    (runHistorical net stations w).1 =
      ⟨stations.length,
       (stations.filter
         (fun st => decide (0 < (download_station_data net st.id st.assets w).1))).length,
       (stations.map (fun st => (download_station_data net st.id st.assets w).1)).sum⟩ := by
  have h := runSync_hist_aux net stations w ⟨0, 0, 0⟩ w (fun _ _ _ => rfl) hids
  simpa [runHistorical, runSync] using h

/-! ### Claim C5: per-asset failures are contained -/

def stFail : Station := ⟨"aaa", [("aaa_t_historical_1990-1999.csv", ⟨some "https://x/aaa"⟩)]⟩

def stOk : Station := ⟨"bbb", [("bbb_t_historical_1990-1999.csv", ⟨some "https://x/bbb"⟩)]⟩

def netBOnly : Net := fun u => if u = "https://x/bbb" then some "data-b" else none

def emptyW : World := ⟨fun _ => none, []⟩

/-- Claim C5: a failed GET makes `download_csv` report `False` for that
asset without touching the file system, and the station loop of the
historical run still processes every station: each summary component is a
per-station aggregate in which a station's term depends only on that
station's own assets, so one station's transfer failures never prevent
later stations from being processed or their successes from being
counted. -/
theorem transfer_failure_isolated (net : Net) (stations : List Station) (w : World)
    (hids : (stations.map Station.id).Nodup) :
    (runHistorical net stations w).1.stations_processed = stations.length ∧
    (runHistorical net stations w).1.stations_with_data =
      (stations.filter
        (fun st => decide (0 < (download_station_data net st.id st.assets w).1))).length ∧
    (runHistorical net stations w).1.total_files =
      (stations.map (fun st => (download_station_data net st.id st.assets w).1)).sum ∧
    (∀ (u : String) (p : DestPath) (w0 : World), net u = none →
      download_csv net u p w0 = (false, ⟨w0.fs, w0.calls ++ [u]⟩)) := by
  have h := runHistorical_decomp net stations w hids
  refine ⟨by rw [h], by rw [h], by rw [h], ?_⟩
  intro u p w0 hu
  simp [download_csv, hu]

theorem transfer_failure_isolated_witness :
    (([stFail, stOk].map Station.id).Nodup) ∧
    (runHistorical netBOnly [stFail, stOk] emptyW).1.stations_with_data =
      ([stFail, stOk].filter
        (fun st =>
          decide (0 < (download_station_data netBOnly st.id st.assets emptyW).1))).length :=
  ⟨by decide, (transfer_failure_isolated netBOnly [stFail, stOk] emptyW (by decide)).2.1⟩

/-! ### Monotonicity and presence lemmas for the skip tier -/

theorem download_csv_fs_mono (net : Net) (url : String) (path : DestPath) (w : World)
    (q : DestPath) (h : (w.fs q).isSome = true) :
    (((download_csv net url path w).2).fs q).isSome = true := by
  unfold download_csv
  cases net url with
  | some body =>
    by_cases hq : q = path
    · simp [writeFS, hq]
    · simpa [writeFS, hq] using h
  | none => exact h

theorem downloadStep_fs_mono (net : Net) (sid : String) (acc : Nat × World)
    (p : String × Asset) (q : DestPath) (h : (acc.2.fs q).isSome = true) :
    (((downloadStep net sid acc p).2).fs q).isSome = true := by
  unfold downloadStep
  cases htr : truthyStr p.2.href with
  | none => exact h
  | some url =>
    cases hex : (acc.2.fs (sid, p.1)).isSome with
    | true => simpa [hex] using h
    | false =>
      simpa [hex] using download_csv_fs_mono net url (sid, p.1) acc.2 q h

theorem foldl_downloadStep_fs_mono (net : Net) (sid : String) (l : List (String × Asset))
    (acc : Nat × World) (q : DestPath) (h : (acc.2.fs q).isSome = true) :
    (((l.foldl (downloadStep net sid) acc).2).fs q).isSome = true := by
  induction l generalizing acc with
  | nil => exact h
  | cons p ps ih =>
    rw [List.foldl_cons]
    exact ih _ (downloadStep_fs_mono net sid acc p q h)

theorem foldl_downloadStep_achieves (net : Net) (sid : String) (l : List (String × Asset))
    (acc : Nat × World) (p : String × Asset) (url : String)
    (hp : p ∈ l) (htr : truthyStr p.2.href = some url)
    (havail : (net url).isSome = true ∨ (acc.2.fs (sid, p.1)).isSome = true) :
    (((l.foldl (downloadStep net sid) acc).2).fs (sid, p.1)).isSome = true := by
  induction l generalizing acc with
  | nil => cases hp
  | cons q qs ih =>
    rw [List.foldl_cons]
    rcases List.mem_cons.mp hp with heq | hmem
    · subst heq
      apply foldl_downloadStep_fs_mono
      unfold downloadStep
      rw [htr]
      cases hex : (acc.2.fs (sid, p.1)).isSome with
      | true => simp [hex]
      | false =>
        rcases havail with hn | hn
        · obtain ⟨body, hb⟩ := Option.isSome_iff_exists.mp hn
          simp [hex, download_csv, hb, writeFS]
        · rw [hn] at hex; cases hex
    · rcases havail with hn | hn
      · exact ih _ hmem (Or.inl hn)
      · exact ih _ hmem (Or.inr (downloadStep_fs_mono net sid acc q (sid, p.1) hn))

theorem download_station_data_fs_mono (net : Net) (sid : String)
    (assets : List (String × Asset)) (w : World) (q : DestPath)
    (h : (w.fs q).isSome = true) :
    (((download_station_data net sid assets w).2).fs q).isSome = true := by
  rw [download_station_data_eq_foldl]
  exact foldl_downloadStep_fs_mono net sid (historicalAssets assets) (0, w) q h

theorem download_station_data_achieves (net : Net) (sid : String)
    (assets : List (String × Asset)) (w : World) (p : String × Asset) (url : String)
    (hp : p ∈ historicalAssets assets) (htr : truthyStr p.2.href = some url)
    (havail : (net url).isSome = true ∨ (w.fs (sid, p.1)).isSome = true) :
    (((download_station_data net sid assets w).2).fs (sid, p.1)).isSome = true := by
  rw [download_station_data_eq_foldl]
  exact foldl_downloadStep_achieves net sid (historicalAssets assets) (0, w) p url hp htr havail

theorem run_foldl_fs_mono (net : Net) (stations : List Station) (acc : RunSummary × World)
    (q : DestPath) (h : (acc.2.fs q).isSome = true) :
    (((stations.foldl (runStep download_station_data net) acc).2).fs q).isSome = true := by
  induction stations generalizing acc with
  | nil => exact h
  | cons st sts ih =>
    rw [List.foldl_cons]
    exact ih _ (download_station_data_fs_mono net st.id st.assets acc.2 q h)

theorem run_foldl_achieves (net : Net) (stations : List Station) (acc : RunSummary × World)
    (st : Station) (p : String × Asset) (url : String)
    (hst : st ∈ stations) (hp : p ∈ historicalAssets st.assets)
    (htr : truthyStr p.2.href = some url)
    (havail : (net url).isSome = true ∨ (acc.2.fs (st.id, p.1)).isSome = true) :
    (((stations.foldl (runStep download_station_data net) acc).2).fs (st.id, p.1)).isSome =
      true := by
  induction stations generalizing acc with
  | nil => cases hst
  | cons s ss ih =>
    rw [List.foldl_cons]
    rcases List.mem_cons.mp hst with heq | hmem
    · subst heq
      apply run_foldl_fs_mono
      exact download_station_data_achieves net st.id st.assets acc.2 p url hp htr havail
    · rcases havail with hn | hn
      · exact ih _ hmem (Or.inl hn)
      · exact ih _ hmem
          (Or.inr (download_station_data_fs_mono net s.id s.assets acc.2 (st.id, p.1) hn))

theorem runHistorical_achieves (net : Net) (stations : List Station) (w : World)
    (st : Station) (p : String × Asset) (url : String)
    (hst : st ∈ stations) (hp : p ∈ historicalAssets st.assets)
    (htr : truthyStr p.2.href = some url)
    (havail : (net url).isSome = true ∨ (w.fs (st.id, p.1)).isSome = true) :
    (((runHistorical net stations w).2).fs (st.id, p.1)).isSome = true :=
  run_foldl_achieves net stations (⟨0, 0, 0⟩, w) st p url hst hp htr havail

theorem foldl_downloadStep_all_present (net : Net) (sid : String) (l : List (String × Asset))
    (c : Nat) (w : World)
    (h : ∀ p ∈ l, ∀ url, truthyStr p.2.href = some url → (w.fs (sid, p.1)).isSome = true) :
    l.foldl (downloadStep net sid) (c, w) =
      (c + (l.filter (fun p => (truthyStr p.2.href).isSome)).length, w) := by
  induction l generalizing c with
  | nil => simp
  | cons p ps ih =>
    cases htr : truthyStr p.2.href with
    | none =>
      have hstep : downloadStep net sid (c, w) p = (c, w) := by simp [downloadStep, htr]
      rw [List.foldl_cons, hstep, ih c (fun q hq url hu => h q (by simp [hq]) url hu)]
      simp [List.filter_cons, htr]
    | some url =>
      have hex := h p (by simp) url htr
      have hstep : downloadStep net sid (c, w) p = (c + 1, w) := by
        simp [downloadStep, htr, hex]
      rw [List.foldl_cons, hstep, ih (c + 1) (fun q hq u hu => h q (by simp [hq]) u hu)]
      simp [List.filter_cons, htr]
      omega

theorem download_station_data_all_present (net : Net) (sid : String)
    (assets : List (String × Asset)) (w : World)
    (h : ∀ p ∈ historicalAssets assets, ∀ url, truthyStr p.2.href = some url →
      (w.fs (sid, p.1)).isSome = true) :
    (download_station_data net sid assets w).2 = w := by
  rw [download_station_data_eq_foldl,
    foldl_downloadStep_all_present net sid (historicalAssets assets) 0 w h]

theorem run_foldl_all_present (net : Net) (stations : List Station) (s : RunSummary)
    (w : World)
    (h : ∀ st ∈ stations, ∀ p ∈ historicalAssets st.assets, ∀ url,
      truthyStr p.2.href = some url → (w.fs (st.id, p.1)).isSome = true) :
    ((stations.foldl (runStep download_station_data net) (s, w)).2) = w := by
  induction stations generalizing s with
  | nil => rfl
  | cons st sts ih =>
    rw [List.foldl_cons, runStep_eq,
      download_station_data_all_present net st.id st.assets w (h st (by simp))]
    exact ih _ (fun st2 h2 => h st2 (by simp [h2]))

/-! ### Claim C3 -/

def netFailAll : Net := fun _ => none

/-- Claim C3 as stated is false: a selected asset whose first-run GET
failed is not on disk afterwards, so the second run issues a network call
for it again. Concretely, with one station, one matching asset and a
network that always fails, the second run's call log strictly extends the
first run's. -/
theorem historical_second_run_idle_counterexample :
    (runHistorical netFailAll [stFail]
        (runHistorical netFailAll [stFail] emptyW).2).2.calls ≠
      (runHistorical netFailAll [stFail] emptyW).2.calls := by
  decide

/-- Claim C3 (amended): if the destination path of a selected asset
already exists, processing it performs no network call (and still counts
it); consequently, when for every selected asset of the first run the GET
succeeds or the file is already present — in particular after a first run
with no failed transfers — the second historical run, with the same
catalog, issues zero asset-download network calls and leaves the artifact
set identical (its end world equals the first run's end world). -/
theorem historical_second_run_idle (net1 net2 : Net) (stations : List Station) (w : World)
    (hfirst : ∀ st ∈ stations, ∀ p ∈ historicalAssets st.assets, ∀ url,
      truthyStr p.2.href = some url →
      (net1 url).isSome = true ∨ (w.fs (st.id, p.1)).isSome = true) :
    ((runHistorical net2 stations (runHistorical net1 stations w).2).2 =
        (runHistorical net1 stations w).2) ∧
    (∀ (net : Net) (sid : String) (c : Nat) (w0 : World) (p : String × Asset) (url : String),
      truthyStr p.2.href = some url → (w0.fs (sid, p.1)).isSome = true →
      downloadStep net sid (c, w0) p = (c + 1, w0)) := by
  constructor
  · have hpresent : ∀ st ∈ stations, ∀ p ∈ historicalAssets st.assets, ∀ url,
        truthyStr p.2.href = some url →
        (((runHistorical net1 stations w).2).fs (st.id, p.1)).isSome = true := by
      intro st hst p hp url htr
      exact runHistorical_achieves net1 stations w st p url hst hp htr
        (hfirst st hst p hp url htr)
    exact run_foldl_all_present net2 stations ⟨0, 0, 0⟩ _ hpresent
  · intro net sid c w0 p url htr hex
    simp [downloadStep, htr, hex]

def netOkA : Net := fun u => if u = "https://x/aaa" then some "payload-a" else none

theorem historical_second_run_idle_witness :
    (runHistorical netOkA [stFail]
        (runHistorical netOkA [stFail] emptyW).2).2 =
      (runHistorical netOkA [stFail] emptyW).2 :=
  (historical_second_run_idle netOkA netOkA [stFail] emptyW (by
    intro st hst p hp url htr
    rw [List.mem_singleton] at hst
    subst hst
    have hsel : historicalAssets stFail.assets =
        [("aaa_t_historical_1990-1999.csv", (⟨some "https://x/aaa"⟩ : Asset))] := by decide
    rw [hsel, List.mem_singleton] at hp
    subst hp
    have hurl : url = "https://x/aaa" := by
      simpa [truthyStr] using htr.symm
    subst hurl
    left
    decide)).1

/-! ### The shared shape of the two overwrite-tier routines -/

/-- The now and recent `download_station_data` differ only in the selector
they apply; this is their common shape, used to prove lemmas once. -/
def selDownload (sel : List (String × Asset) → Option (String × Asset)) (net : Net)
    (sid : String) (assets : List (String × Asset)) (w : World) : Nat × World :=
  match sel assets with
  | none => (0, w)
  | some (n, a) =>
    match truthyStr a.href with
    | none => (0, w)
    | some url =>
      let r := download_csv net url (sid, n) w
      (if r.1 then 1 else 0, r.2)

theorem download_station_data_now_eq_sel :
    download_station_data_now = selDownload nowAsset := rfl

theorem download_station_data_recent_eq_sel :
    download_station_data_recent = selDownload recentAsset := rfl

theorem selDownload_success (sel : List (String × Asset) → Option (String × Asset))
    (net : Net) (sid : String) (assets : List (String × Asset)) (w : World)
    (n : String) (a : Asset) (url body : String)
    (hsel : sel assets = some (n, a)) (htr : truthyStr a.href = some url)
    (hnet : net url = some body) :
    selDownload sel net sid assets w =
      (1, ⟨writeFS w.fs (sid, n) body, w.calls ++ [url]⟩) := by
  simp [selDownload, hsel, htr, download_csv, hnet]

theorem selDownload_no_href (sel : List (String × Asset) → Option (String × Asset))
    (net : Net) (sid : String) (assets : List (String × Asset)) (w : World)
    (n : String) (a : Asset)
    (hsel : sel assets = some (n, a)) (htr : truthyStr a.href = none) :
    selDownload sel net sid assets w = (0, w) := by
  simp [selDownload, hsel, htr]

theorem selDownload_fs_of_ne (sel : List (String × Asset) → Option (String × Asset))
    (net : Net) (sid : String) (assets : List (String × Asset)) (w : World)
    (q : DestPath) (hq : q.1 ≠ sid) :
    ((selDownload sel net sid assets w).2).fs q = w.fs q := by
  cases hsel : sel assets with
  | none => simp [selDownload, hsel]
  | some p =>
    obtain ⟨n, a⟩ := p
    cases htr : truthyStr a.href with
    | none => simp [selDownload, hsel, htr]
    | some url =>
      simp only [selDownload, hsel, htr]
      exact download_csv_fs_of_ne net url (sid, n) w q (fun hc => hq (by rw [hc]))

theorem selDownload_calls_mono (sel : List (String × Asset) → Option (String × Asset))
    (net : Net) (sid : String) (assets : List (String × Asset)) (w : World) :
    ∃ t, (selDownload sel net sid assets w).2.calls = w.calls ++ t := by
  cases hsel : sel assets with
  | none => exact ⟨[], by simp [selDownload, hsel]⟩
  | some p =>
    obtain ⟨n, a⟩ := p
    cases htr : truthyStr a.href with
    | none => exact ⟨[], by simp [selDownload, hsel, htr]⟩
    | some url =>
      refine ⟨[url], ?_⟩
      cases hnet : net url <;> simp [selDownload, hsel, htr, download_csv, hnet]

/-- Whether the overwrite-tier routine counts its station: the selector
finds an asset whose href is usable and whose GET succeeds. -/
def selDone (sel : List (String × Asset) → Option (String × Asset)) (net : Net)
    (assets : List (String × Asset)) : Bool :=
  match sel assets with
  | none => false
  | some (_, a) =>
    match truthyStr a.href with
    | none => false
    | some url => (net url).isSome

theorem selDownload_count (sel : List (String × Asset) → Option (String × Asset))
    (net : Net) (sid : String) (assets : List (String × Asset)) (w : World) :
    (selDownload sel net sid assets w).1 = if selDone sel net assets then 1 else 0 := by
  cases hsel : sel assets with
  | none => simp [selDownload, selDone, hsel]
  | some p =>
    obtain ⟨n, a⟩ := p
    cases htr : truthyStr a.href with
    | none => simp [selDownload, selDone, hsel, htr]
    | some url =>
      cases hnet : net url <;>
        simp [selDownload, selDone, hsel, htr, download_csv, hnet]

theorem runSel_aux (sel : List (String × Asset) → Option (String × Asset)) (net : Net)
    (stations : List Station) (s : RunSummary) (w : World) :
    (stations.foldl (runStep (selDownload sel) net) (s, w)).1 =
      ⟨s.stations_processed + stations.length,
       s.stations_with_data + (stations.filter (fun st => selDone sel net st.assets)).length,
       s.total_files + (stations.filter (fun st => selDone sel net st.assets)).length⟩ := by
  induction stations generalizing s w with
  | nil => simp
  | cons st sts ih =>
    rw [List.foldl_cons, runStep_eq, selDownload_count sel net st.id st.assets w, ih]
    cases hdone : selDone sel net st.assets with
    | true =>
      simp only [hdone, if_true, zero_lt_one, List.filter_cons, List.length_cons,
        RunSummary.mk.injEq]
      exact ⟨by omega, by omega, by omega⟩
    | false =>
      simp only [hdone, Bool.false_eq_true, if_false, lt_self_iff_false, List.filter_cons,
        List.length_cons, RunSummary.mk.injEq]
      exact ⟨by omega, by omega, by omega⟩

theorem runSel_foldl_fs_of_notin (sel : List (String × Asset) → Option (String × Asset))
    (net : Net) (stations : List Station) (acc : RunSummary × World) (q : DestPath)
    (hq : q.1 ∉ stations.map Station.id) :
    ((stations.foldl (runStep (selDownload sel) net) acc).2).fs q = acc.2.fs q := by
  induction stations generalizing acc with
  | nil => rfl
  | cons st sts ih =>
    rw [List.map_cons, List.mem_cons] at hq
    push_neg at hq
    rw [List.foldl_cons, ih _ hq.2]
    exact selDownload_fs_of_ne sel net st.id st.assets acc.2 q hq.1

theorem runSel_foldl_calls_mono (sel : List (String × Asset) → Option (String × Asset))
    (net : Net) (stations : List Station) (acc : RunSummary × World) :
    ∃ t, ((stations.foldl (runStep (selDownload sel) net) acc).2).calls =
      acc.2.calls ++ t := by
  induction stations generalizing acc with
  | nil => exact ⟨[], by simp⟩
  | cons st sts ih =>
    rw [List.foldl_cons]
    obtain ⟨t1, h1⟩ := selDownload_calls_mono sel net st.id st.assets acc.2
    obtain ⟨t2, h2⟩ := ih (runStep (selDownload sel) net acc st)
    refine ⟨t1 ++ t2, ?_⟩
    rw [h2]
    show (selDownload sel net st.id st.assets acc.2).2.calls ++ t2 = acc.2.calls ++ (t1 ++ t2)
    rw [h1, List.append_assoc]

theorem runSel_overwrite (sel : List (String × Asset) → Option (String × Asset))
    (net : Net) (stations : List Station) (w : World)
    (st : Station) (n : String) (a : Asset) (url body : String)
    (hids : (stations.map Station.id).Nodup) (hmem : st ∈ stations)
    (hsel : sel st.assets = some (n, a)) (htr : truthyStr a.href = some url)
    (hnet : net url = some body) :
    ((runSync (selDownload sel) net stations w).2).fs (st.id, n) = some body ∧
    url ∈ (runSync (selDownload sel) net stations w).2.calls := by
  obtain ⟨l1, l2, rfl⟩ := List.append_of_mem hmem
  have hids2 : st.id ∉ l2.map Station.id := by
    rw [List.map_append, List.map_cons] at hids
    exact (List.nodup_cons.mp (List.Nodup.of_append_right hids)).1
  unfold runSync
  rw [List.foldl_append, List.foldl_cons]
  have hstep : (runStep (selDownload sel) net
      (l1.foldl (runStep (selDownload sel) net) (⟨0, 0, 0⟩, w)) st).2 =
      ⟨writeFS (l1.foldl (runStep (selDownload sel) net) (⟨0, 0, 0⟩, w)).2.fs (st.id, n) body,
       (l1.foldl (runStep (selDownload sel) net) (⟨0, 0, 0⟩, w)).2.calls ++ [url]⟩ := by
    show (selDownload sel net st.id st.assets _).2 = _
    rw [selDownload_success sel net st.id st.assets _ n a url body hsel htr hnet]
  constructor
  · rw [runSel_foldl_fs_of_notin sel net l2 _ (st.id, n) hids2, hstep]
    simp [writeFS]
  · obtain ⟨t, ht⟩ := runSel_foldl_calls_mono sel net l2
      (runStep (selDownload sel) net (l1.foldl (runStep (selDownload sel) net) (⟨0, 0, 0⟩, w)) st)
    rw [ht, hstep]
    simp

/-! ### Claim C4 -/

/-- Claim C4: in the now and recent tiers the selected asset is fetched
unconditionally (its URL is requested whatever the file system holds) and
the destination file ends up holding the freshly fetched body, replacing
any existing content; hence after two runs whose remote content differs,
the local artifact equals the second run's content. -/
theorem overwrite_tier_freshness :
    (∀ (net : Net) (stations : List Station) (w : World) (st : Station) (n : String)
        (a : Asset) (url body : String),
      (stations.map Station.id).Nodup → st ∈ stations →
      nowAsset st.assets = some (n, a) → truthyStr a.href = some url → net url = some body →
      ((runNow net stations w).2.fs (st.id, n) = some body ∧
        url ∈ (runNow net stations w).2.calls)) ∧
    (∀ (net : Net) (stations : List Station) (w : World) (st : Station) (n : String)
        (a : Asset) (url body : String),
      (stations.map Station.id).Nodup → st ∈ stations →
      recentAsset st.assets = some (n, a) → truthyStr a.href = some url →
      net url = some body →
      ((runRecent net stations w).2.fs (st.id, n) = some body ∧
        url ∈ (runRecent net stations w).2.calls)) ∧
    (∀ (net1 net2 : Net) (stations : List Station) (w : World) (st : Station) (n : String)
        (a : Asset) (url c1 c2 : String),
      (stations.map Station.id).Nodup → st ∈ stations →
      nowAsset st.assets = some (n, a) → truthyStr a.href = some url →
      net1 url = some c1 → net2 url = some c2 →
      (runNow net2 stations (runNow net1 stations w).2).2.fs (st.id, n) = some c2) := by
  refine ⟨?_, ?_, ?_⟩
  · intro net stations w st n a url body hids hmem hsel htr hnet
    exact runSel_overwrite nowAsset net stations w st n a url body hids hmem hsel htr hnet
  · intro net stations w st n a url body hids hmem hsel htr hnet
    exact runSel_overwrite recentAsset net stations w st n a url body hids hmem hsel htr hnet
  · intro net1 net2 stations w st n a url c1 c2 hids hmem hsel htr hnet1 hnet2
    exact (runSel_overwrite nowAsset net2 stations (runNow net1 stations w).2 st n a url c2
      hids hmem hsel htr hnet2).1

def stNow : Station := ⟨"nnn", [("nnn_t_now.csv", ⟨some "https://x/now"⟩)]⟩

def netNow : Net := fun u => if u = "https://x/now" then some "fresh-body" else none

theorem overwrite_tier_freshness_witness :
    ([stNow].map Station.id).Nodup ∧ stNow ∈ [stNow] ∧
    ((runNow netNow [stNow] emptyW).2.fs ("nnn", "nnn_t_now.csv") = some "fresh-body" ∧
      "https://x/now" ∈ (runNow netNow [stNow] emptyW).2.calls) :=
  ⟨by decide, by decide,
    overwrite_tier_freshness.1 netNow [stNow] emptyW stNow "nnn_t_now.csv"
      ⟨some "https://x/now"⟩ "https://x/now" "fresh-body"
      (by decide) (by decide) (by decide) (by decide) (by decide)⟩

/-! ### Claim C7 -/

theorem decide_pos_filter_eq_any {α : Type} (l : List α) (p : α → Bool) :
    decide (0 < (l.filter p).length) = l.any p := by
  induction l with
  | nil => rfl
  | cons a as ih =>
    cases hpa : p a
    · simp [List.filter_cons, hpa, ih]
    · simp [List.filter_cons, hpa]

/-- Claim C7: a station counts toward `stations_with_data` iff at least
one of its selected assets is transferred successfully or skipped as
already present (historical tier), resp. its single selected asset
transfers successfully (now tier); a station with an empty asset mapping,
or no assets matching the requested tier, contributes zero downloads and
is excluded from that count. -/
theorem stations_with_data_iff :
    (∀ (net : Net) (stations : List Station) (w : World),
      (stations.map Station.id).Nodup →
      (∀ st ∈ stations, ((historicalAssets st.assets).map Prod.fst).Nodup) →
      (runHistorical net stations w).1.stations_with_data =
        (stations.filter
          (fun st => (historicalAssets st.assets).any (assetDone net w.fs st.id))).length) ∧
    (∀ (net : Net) (stations : List Station) (w : World),
      (runNow net stations w).1.stations_with_data =
        (stations.filter (fun st => selDone nowAsset net st.assets)).length) ∧
    (∀ (net : Net) (sid : String) (w : World),
      download_station_data net sid [] w = (0, w) ∧
      download_station_data_now net sid [] w = (0, w) ∧
      download_station_data_recent net sid [] w = (0, w)) := by
  refine ⟨?_, ?_, ?_⟩
  · intro net stations w hids hnames
    rw [runHistorical_decomp net stations w hids]
    show (stations.filter _).length = _
    refine congrArg List.length (List.filter_congr ?_)
    intro st hst
    rw [download_station_data_count net st.id st.assets w (hnames st hst)]
    exact decide_pos_filter_eq_any (historicalAssets st.assets) (assetDone net w.fs st.id)
  · intro net stations w
    have h := runSel_aux nowAsset net stations ⟨0, 0, 0⟩ w
    calc (runNow net stations w).1.stations_with_data
        = ((stations.foldl (runStep (selDownload nowAsset) net)
            (⟨0, 0, 0⟩, w)).1).stations_with_data := rfl
      _ = _ := by rw [h]; simp
  · intro net sid w
    exact ⟨rfl, rfl, rfl⟩

theorem stations_with_data_iff_witness :
    ([stFail, stOk].map Station.id).Nodup ∧
    (runHistorical netBOnly [stFail, stOk] emptyW).1.stations_with_data =
      ([stFail, stOk].filter
        (fun st =>
          (historicalAssets st.assets).any (assetDone netBOnly emptyW.fs st.id))).length :=
  ⟨by decide,
    stations_with_data_iff.1 netBOnly [stFail, stOk] emptyW (by decide) (by decide)⟩

/-! ### Claim C9 -/

/-- A selected asset counted by the skip branch: usable href and the
destination already present. -/
def assetSkipped (fs : FileSystem) (sid : String) (p : String × Asset) : Bool :=
  (truthyStr p.2.href).isSome && (fs (sid, p.1)).isSome

/-- A selected asset counted by a fresh, successful transfer. -/
def assetFresh (net : Net) (fs : FileSystem) (sid : String) (p : String × Asset) : Bool :=
  match truthyStr p.2.href with
  | none => false
  | some url => !(fs (sid, p.1)).isSome && (net url).isSome

theorem assetDone_eq_or (net : Net) (fs : FileSystem) (sid : String) (p : String × Asset) :
    assetDone net fs sid p = (assetSkipped fs sid p || assetFresh net fs sid p) := by
  cases htr : truthyStr p.2.href with
  | none => simp [assetDone, assetSkipped, assetFresh, htr]
  | some url =>
    cases hfs : (fs (sid, p.1)).isSome <;>
      simp [assetDone, assetSkipped, assetFresh, htr, hfs]

theorem length_filter_or_disjoint {α : Type} (l : List α) (p q : α → Bool)
    (hdisj : ∀ a ∈ l, ¬(p a = true ∧ q a = true)) :
    (l.filter (fun a => p a || q a)).length =
      (l.filter p).length + (l.filter q).length := by
  induction l with
  | nil => rfl
  | cons a as ih =>
    have ihh := ih (fun b hb => hdisj b (by simp [hb]))
    cases hpa : p a with
    | true =>
      cases hqa : q a with
      | true => exact absurd ⟨hpa, hqa⟩ (hdisj a (by simp))
      | false =>
        simp only [List.filter_cons, hpa, hqa, Bool.true_or, if_true,
          Bool.false_eq_true, if_false, List.length_cons, ihh]
        omega
    | false =>
      cases hqa : q a with
      | true =>
        simp only [List.filter_cons, hpa, hqa, Bool.false_or, if_true,
          Bool.false_eq_true, if_false, List.length_cons, ihh]
        omega
      | false =>
        simp only [List.filter_cons, hpa, hqa, Bool.false_or, Bool.false_eq_true,
          if_false, ihh]

theorem map_congr_mem {α β : Type} (l : List α) (f g : α → β) (h : ∀ a ∈ l, f a = g a) :
    l.map f = l.map g := by
  induction l with
  | nil => rfl
  | cons a as ih =>
    simp [List.map_cons, h a (by simp), ih (fun b hb => h b (by simp [hb]))]

/-- Claim C9: an asset skipped as already present contributes 1 to the
station's count and to the run's `total_files`, exactly as a freshly
downloaded one does: the printed total is the sum over stations of
(number of skipped-as-present assets) + (number of fresh successful
downloads). -/
theorem skipped_counts_in_total (net : Net) (stations : List Station) (w : World)
    (hids : (stations.map Station.id).Nodup)
    (hnames : ∀ st ∈ stations, ((historicalAssets st.assets).map Prod.fst).Nodup) :
    (runHistorical net stations w).1.total_files =
      (stations.map (fun st =>
        ((historicalAssets st.assets).filter (assetSkipped w.fs st.id)).length +
        ((historicalAssets st.assets).filter (assetFresh net w.fs st.id)).length)).sum ∧
    (∀ (net0 : Net) (sid : String) (c : Nat) (w0 : World) (p : String × Asset) (url : String),
      truthyStr p.2.href = some url → (w0.fs (sid, p.1)).isSome = true →
      (downloadStep net0 sid (c, w0) p).1 = c + 1) := by
  constructor
  · rw [runHistorical_decomp net stations w hids]
    show (stations.map _).sum = _
    refine congrArg List.sum (map_congr_mem stations _ _ ?_)
    intro st hst
    rw [download_station_data_count net st.id st.assets w (hnames st hst)]
    rw [List.filter_congr (fun p _ => assetDone_eq_or net w.fs st.id p)]
    apply length_filter_or_disjoint
    rintro p hp ⟨hs, hf⟩
    cases htr : truthyStr p.2.href with
    | none => rw [assetSkipped, htr] at hs; simp at hs
    | some url =>
      rw [assetSkipped, htr] at hs
      rw [assetFresh, htr] at hf
      simp only [Option.isSome_some, Bool.true_and] at hs
      rw [hs] at hf
      simp at hf
  · intro net0 sid c w0 p url htr hex
    simp [downloadStep, htr, hex]

def wPre : World :=
  ⟨fun q => if q = ("aaa", "aaa_t_historical_1990-1999.csv") then some "old-body" else none, []⟩

theorem skipped_counts_in_total_witness :
    ([stFail].map Station.id).Nodup ∧
    (runHistorical netFailAll [stFail] wPre).1.total_files =
      ([stFail].map (fun st =>
        ((historicalAssets st.assets).filter (assetSkipped wPre.fs st.id)).length +
        ((historicalAssets st.assets).filter (assetFresh netFailAll wPre.fs st.id)).length)).sum :=
  ⟨by decide, (skipped_counts_in_total netFailAll [stFail] wPre (by decide) (by decide)).1⟩

/-! ### Claim C10 -/

theorem run_foldl_processed (dl : Downloader) (net : Net) (stations : List Station)
    (s : RunSummary) (w : World) :
    ((stations.foldl (runStep dl net) (s, w)).1).stations_processed =
      s.stations_processed + stations.length := by
  induction stations generalizing s w with
  | nil => simp
  | cons st sts ih =>
    rw [List.foldl_cons, runStep_eq, ih]
    simp only [List.length_cons]
    omega

/-- Claim C10: an asset matching the tier's predicate but lacking a
(truthy) href is silently skipped: removing it from the asset mapping
changes nothing in the historical routine's result (no transfer, counted
neither as downloaded nor failed); in the now/recent tiers the station
simply yields 0 with an untouched world; and the station loop still
processes every station. -/
theorem missing_href_silently_skipped :
    (∀ (net : Net) (sid : String) (w : World) (l1 l2 : List (String × Asset))
        (n : String) (a : Asset),
      isHistoricalName n = true → truthyStr a.href = none →
      download_station_data net sid (l1 ++ (n, a) :: l2) w =
        download_station_data net sid (l1 ++ l2) w) ∧
    (∀ (net : Net) (sid : String) (assets : List (String × Asset)) (w : World)
        (n : String) (a : Asset),
      nowAsset assets = some (n, a) → truthyStr a.href = none →
      download_station_data_now net sid assets w = (0, w)) ∧
    (∀ (net : Net) (sid : String) (assets : List (String × Asset)) (w : World)
        (n : String) (a : Asset),
      recentAsset assets = some (n, a) → truthyStr a.href = none →
      download_station_data_recent net sid assets w = (0, w)) ∧
    (∀ (net : Net) (stations : List Station) (w : World),
      (runHistorical net stations w).1.stations_processed = stations.length) := by
  refine ⟨?_, ?_, ?_, ?_⟩
  · intro net sid w l1 l2 n a hn ha
    rw [download_station_data_eq_foldl, download_station_data_eq_foldl]
    unfold historicalAssets
    rw [List.filter_append, List.filter_append, List.filter_cons, if_pos (by simpa using hn)]
    rw [List.foldl_append, List.foldl_append, List.foldl_cons]
    congr 1
    simp [downloadStep, ha]
  · intro net sid assets w n a hsel ha
    exact selDownload_no_href nowAsset net sid assets w n a hsel ha
  · intro net sid assets w n a hsel ha
    exact selDownload_no_href recentAsset net sid assets w n a hsel ha
  · intro net stations w
    have h := run_foldl_processed download_station_data net stations ⟨0, 0, 0⟩ w
    simpa [runHistorical, runSync] using h

theorem missing_href_silently_skipped_witness :
    isHistoricalName "zzz_t_historical_2000-2009.csv" = true ∧
    truthyStr (Asset.mk none).href = none ∧
    download_station_data netFailAll "zzz"
        ([] ++ ("zzz_t_historical_2000-2009.csv", Asset.mk none) :: []) emptyW =
      download_station_data netFailAll "zzz" ([] ++ []) emptyW :=
  ⟨by decide, by decide,
    missing_href_silently_skipped.1 netFailAll "zzz" emptyW [] []
      "zzz_t_historical_2000-2009.csv" (Asset.mk none) (by decide) (by decide)⟩

/-! ### Claim C8 -/

theorem upload_eq_missingCreds_iff (env : Env) (gridExists forecastExists : Bool) :
    upload_files_to_stage env gridExists forecastExists = UploadOutcome.missingCreds ↔
      credsMissing env = true := by
  unfold upload_files_to_stage credsMissing
  cases h : (optTruthy (env "SNOWFLAKE_ACCOUNT") && optTruthy (env "SNOWFLAKE_USER") &&
      optTruthy (env "SNOWFLAKE_PASSWORD")) with
  | false => simp [h]
  | true => cases gridExists <;> cases forecastExists <;> simp [h]

def envCX : Env := fun k =>
  if k = "SNOWFLAKE_ACCOUNT" then some "acct"
  else if k = "SNOWFLAKE_USER" then some "alice"
  else if k = "SNOWFLAKE_PASSWORD" then some "pw"
  else if k = "SNOWFLAKE_ROLE" then some ""
  else none

/-- Claim C8 as stated is false: only account, user and password are
validated. With account, user and password set but `SNOWFLAKE_ROLE` set
to the empty string, not all seven resolved credentials are present, yet
the code proceeds to attempt a connection instead of aborting. -/
theorem creds_validation_counterexample :
    allSevenPresent envCX = false ∧
    upload_files_to_stage envCX true true =
      UploadOutcome.connected
        ⟨"acct", "alice", "pw", "", "METEOSWISS_WH", "METEOSWISS", "BRONZE"⟩ := by
  constructor
  · decide
  · decide

/-- Claim C8 (amended): before any warehouse interaction, the staging step
validates that account, user and password are present and non-empty (role,
warehouse, database and schema instead fall back to non-empty defaults and
are not validated), and aborts with `sys.exit(1)` — without attempting a
connection — exactly when that validation fails. -/
theorem creds_validation (env : Env) (gridExists forecastExists : Bool) :
    (credsMissing env = true →
      upload_files_to_stage env gridExists forecastExists = UploadOutcome.missingCreds) ∧
    (upload_files_to_stage env gridExists forecastExists = UploadOutcome.missingCreds →
      credsMissing env = true) ∧
    (∀ cfg, upload_files_to_stage env gridExists forecastExists =
        UploadOutcome.connected cfg → credsMissing env = false) := by
  refine ⟨fun h => (upload_eq_missingCreds_iff env gridExists forecastExists).mpr h,
          fun h => (upload_eq_missingCreds_iff env gridExists forecastExists).mp h, ?_⟩
  intro cfg h
  cases hcm : credsMissing env with
  | false => rfl
  | true =>
    rw [(upload_eq_missingCreds_iff env gridExists forecastExists).mpr hcm] at h
    exact absurd h (by simp)

def envMissing : Env := fun k =>
  if k = "SNOWFLAKE_ACCOUNT" then some "acct"
  else if k = "SNOWFLAKE_USER" then some "alice"
  else none

theorem creds_validation_witness :
    credsMissing envMissing = true ∧
    upload_files_to_stage envMissing true true = UploadOutcome.missingCreds :=
  ⟨by decide, (creds_validation envMissing true true).1 (by decide)⟩

end Meteoswiss
